import Mathlib

/-!
Verification of the Go-rpc repository (a minimal Go RPC framework) against
its natural-language specification.  The Go source is shallowly embedded:
pure control flow becomes Lean functions, Go maps become association lists,
goroutine races are abstracted by an explicit parameter recording which
branch of a `select` fires, and channels carrying single completion signals
become explicit event lists.  Machine integers (`uint64` sequence numbers,
`int` indices) are modelled as `Nat`: the source only increments them, and
no claim depends on wrap-around.
-/

namespace GoRpc

/-! ## Options and `parseOptions` (client.go)

`Option` is the JSON handshake prelude.  A `*Option` in Go may be nil, so
the variadic argument of `parseOptions` is a `List (Option GoOption)`.
-/

/-- `Option` from server.go / client.go: magic number, codec name and the
two timeouts (durations modelled as `Nat` nanoseconds). -/
structure GoOption where
  number : Nat
  codecType : String
  connectTimeout : Nat
  handleTimeout : Nat
deriving DecidableEq, Repr

/-- `const Number = 0x1a2b3c`. -/
def magicNumber : Nat := 0x1a2b3c

/-- `DefaultOption`: magic number set, codec `"gob"`, zero timeouts. -/
def defaultGoOption : GoOption :=
  { number := magicNumber, codecType := "gob", connectTimeout := 0, handleTimeout := 0 }

/-- `parseOptions` from client.go: if the list is empty or its first
element is the nil pointer, return `DefaultOption`; otherwise, if the list
has more than one element, error; otherwise force the magic number, fill in
an empty codec type, and return the (mutated) option. -/
def parseOptions (opts : List (Option GoOption)) : Except String GoOption :=
  match opts with
  | [] => .ok defaultGoOption
  | none :: _ => .ok defaultGoOption
  | some o :: rest =>
    if rest.isEmpty then
      .ok { o with
              number := defaultGoOption.number,
              codecType := if o.codecType = "" then defaultGoOption.codecType
                           else o.codecType }
    else
      .error "number of options is more than 1"

/-! ## `Client.Go` (client.go lines 151-169)

The `done` argument is a Go channel, possibly nil; its capacity is what the
code inspects, so it is modelled as `Option Nat` (`none` = nil channel).
`log.Panic` aborts the call, modelled as the `.error` branch. -/

/-- The `Call` record as built by `Go`: the method name and the capacity of
the completion channel attached to it (`sent = true` records that `Go`
went on to invoke `client.send(call)`). -/
structure GoCallRec where
  serviceMethod : String
  doneCap : Nat
  sent : Bool
deriving DecidableEq, Repr

/-- `Client.Go`: nil `done` is replaced by a fresh channel of capacity 10;
a non-nil unbuffered channel (capacity 0) triggers `log.Panic`; otherwise
the caller's channel is attached, and the call is sent. -/
def clientGo (serviceMethod : String) (done : Option Nat) : Except String GoCallRec :=
  match done with
  | none => .ok { serviceMethod := serviceMethod, doneCap := 10, sent := true }
  | some 0 => .error "rpc client: done channel is unbuffered"
  | some c => .ok { serviceMethod := serviceMethod, doneCap := c, sent := true }

/-! ## `Client.Close` and `Client.IsAvailable` (client.go lines 62-77) -/

/-- The flags of a `Client` that `Close`/`IsAvailable` touch, plus a ghost
flag recording whether `cc.Close()` was invoked on the codec. -/
structure CloseSt where
  closing : Bool
  shutdown : Bool
  codecClosed : Bool
deriving DecidableEq, Repr

/-- `Client.Close`: under the state lock, if already `closing` return
`ErrShutdown`; otherwise set `closing` and close the codec (codec close is
modelled as succeeding, returning no error). -/
def clientClose (st : CloseSt) : CloseSt × Option String :=
  if st.closing then (st, some "connection is shut down")
  else ({ st with closing := true, codecClosed := true }, none)

/-- `Client.IsAvailable`: `!shutdown && !closing`. -/
def isAvailable (st : CloseSt) : Bool :=
  !st.shutdown && !st.closing

/-! ## Server `handleRequest` (server.go lines 416-454)

The worker goroutine runs `req.svc.call`, then sends `called <- struct{}{}`
(unbuffered), then writes its own response with `sendResponse`, then sends
`sent <- struct{}{}`.  The supervisor, when `timeout > 0`, selects between
`<-called` and `<-time.After(timeout)`.  When the timer branch is taken it
writes the timeout-error response and then drains `<-called` and `<-sent`;
receiving `called` unblocks the worker, which then performs its own
`sendResponse` before signalling `sent`.  The model returns the list of
response frames written on the wire for the request, in write order (the
per-connection `sending` mutex serialises them).  `timerFires` records
which branch the supervisor's `select` commits to; when the handler runs
longer than the timeout and the supervisor is scheduled promptly, only the
timer branch is ready. -/

/-- One response frame written by the server for a request: either the
worker's own response (header error = the handler's error, if any) or the
supervisor's timeout-error response. -/
inductive ServerResp where
  | worker (err : Option String)
  | timeoutErr (timeout : Nat)
deriving DecidableEq, Repr

/-- `Server.handleRequest`: the sequence of responses written on the wire
for one request.  `timeout = 0` waits for the worker unconditionally; with
`timeout > 0` the timer branch first writes the timeout-error response and
then, by draining `called`, lets the worker write its own response too. -/
def handleRequest (timeout : Nat) (timerFires : Bool) (workerErr : Option String) :
    List ServerResp :=
  if timeout = 0 then
    [.worker workerErr]
  else if timerFires then
    [.timeoutErr timeout, .worker workerErr]
  else
    [.worker workerErr]

/-! ## `Client.Call` (client.go lines 174-187)

```go
call := <-client.Go(serviceMethod, args, reply, make(chan *Call, 1)).Done
select {
case <-ctx.Done():
    client.removeCall(call.Seq)
    return errors.New("rpc client: call failed: " + ctx.Err().Error())
case call := <-call.Done:
    return call.Error
}
return call.Error
```

The first line is a blocking receive on the capacity-1 completion channel:
`Call` waits for the call to complete before entering the `select`.
`done()` fires exactly once per `Call` (the receiver removes the call from
`pending` before signalling, so `terminateCalls` cannot signal it again),
so the `select`'s second branch — a second receive on the now-empty
channel — can never become ready, and the `select` unblocks only via
`ctx.Done()`.  The model's parameters record whether the completion signal
ever fires and whether the context is ever cancelled; the result is `none`
when `Call` blocks forever. -/

/-- What a caller of `Client.Call` observes when it returns. -/
inductive CallOutcome where
  | success
  | callErr (msg : String)
  | cancelErr
deriving DecidableEq, Repr

/-- `Client.Call` as written: first a blocking receive of the completion
signal, then a `select` whose completion branch is dead (the channel was
just emptied and is never refilled), so it can only return via context
cancellation. -/
def clientCall (completes ctxCancelled : Bool) (callErr : Option String) :
    Option CallOutcome :=
  if !completes then none
  else if ctxCancelled then some .cancelErr
  else none

/-- Modelled from the spec (for comparison): `Call` waits on whichever of
context cancellation and call completion fires first; on cancellation it
returns a cancellation error without waiting for the response, otherwise
the call's own result. `cancelFirst` records which event fires first. -/
def specClientCall (cancelFirst : Bool) (callErr : Option String) : CallOutcome :=
  if cancelFirst then .cancelErr
  else match callErr with
    | none => .success
    | some e => .callErr e

/-! ## Registry (registry.go)

Times are `Nat` nanoseconds; `t.Add(d).After(u)` in Go is the strict
comparison `t + d > u`.  The Go map `servers` is an association list of
`ServerItem`s; `aliveServers` iterates it (iteration order is immaterial:
the alive list is sorted afterwards and deletion is pointwise). -/

/-- `ServerItem`: a registered address and its last heartbeat time. -/
structure ServerItem where
  addr : String
  start : Nat
deriving DecidableEq, Repr

/-- `GoRegistry`: expiry timeout and the server map. -/
structure Registry where
  timeout : Nat
  servers : List ServerItem
deriving DecidableEq, Repr

/-- The loop condition of `aliveServers`:
`r.timeout == 0 || s.start.Add(r.timeout).After(time.Now())`. -/
def itemAlive (timeout now : Nat) (s : ServerItem) : Bool :=
  timeout == 0 || decide (s.start + timeout > now)

/-- `GoRegistry.aliveServers`: collect the addresses passing `itemAlive`,
delete the others from the map, and sort the collected list
(`sort.Strings`, ascending lexicographic).  Returns the sorted alive list
and the updated registry. -/
def aliveServers (r : Registry) (now : Nat) : List String × Registry :=
  (((r.servers.filter (itemAlive r.timeout now)).map ServerItem.addr).insertionSort
      (· ≤ ·),
   { r with servers := r.servers.filter (itemAlive r.timeout now) })

/-- `GoRegistry.ServeHTTP` on `GET`: the `X-Gorpc-Servers` header value is
the comma-joined alive list; the registry keeps the purged map. -/
def serveGet (r : Registry) (now : Nat) : String × Registry :=
  (String.intercalate "," (aliveServers r now).1, (aliveServers r now).2)

/-! ## `MultiServersDiscovery` (xclient discovery)

Go's `SelectMode` is an `int` (`RandomSelect = 0`, `RoundRobinSelect = 1`);
an unknown mode is any other integer.  `d.r.Intn(n)` yields a number in
`[0, n)`, passed in as the oracle `randPick` (reduced `% n` to keep the
model total; for `randPick < n` that is `randPick` itself).  Go's indexing
`servers[i]` with `i < n` is modelled by `getD` with an unreachable
default. -/

def randomSelect : Int := 0

def roundRobinSelect : Int := 1

/-- `MultiServersDiscovery`: the manual server list and the round-robin
index (randomly initialised by `NewMultiServerDiscovery`). -/
structure MultiServersDiscovery where
  servers : List String
  index : Nat
deriving DecidableEq, Repr

/-- `MultiServersDiscovery.Get`: empty list errors; `RandomSelect` picks
`servers[randPick]`; `RoundRobinSelect` returns `servers[index % n]` and
sets `index := (index + 1) % n`; any other mode errors. -/
def msGet (d : MultiServersDiscovery) (randPick : Nat) (mode : Int) :
    Except String (String × MultiServersDiscovery) :=
  let n := d.servers.length
  if n = 0 then .error "rpc discovery: no available servers"
  else if mode = randomSelect then
    .ok (d.servers.getD (randPick % n) "", d)
  else if mode = roundRobinSelect then
    .ok (d.servers.getD (d.index % n) "", { d with index := (d.index + 1) % n })
  else
    .error "rpc discovery: not supported select mode"

/-- `k` consecutive `Get(RoundRobinSelect)` calls, collecting the returned
servers in order. -/
def msGetN (d : MultiServersDiscovery) : Nat → List String × MultiServersDiscovery
  | 0 => ([], d)
  | Nat.succ k =>
    match msGet d 0 roundRobinSelect with
    | .error _ => ([], d)
    | .ok (s, d2) =>
      let (l, d3) := msGetN d2 k
      (s :: l, d3)

/-! ## Client call bookkeeping (client.go lines 80-101, 190-217, 236-246)

The fields of `Client` that `registerCall`/`removeCall`/`receive` touch.
The pending map `map[uint64]*Call` is represented by the list of its keys
(each key identifies its `*Call`); `seq` is the `uint64` counter.  All of
these operations run under `client.mu`, so a run of the client is a
sequence of atomic steps. -/

/-- The sequencing state of a `Client`. -/
structure ClientSt where
  seq : Nat
  pending : List Nat
  closing : Bool
  shutdown : Bool
deriving DecidableEq, Repr

/-- `NewClientCodec`: `seq` starts at 1 (0 means invalid call); empty
pending map; both close flags clear. -/
def newClientSt : ClientSt :=
  { seq := 1, pending := [], closing := false, shutdown := false }

/-- `Client.registerCall`: refuse with `ErrShutdown` when closing or shut
down; otherwise assign `call.Seq = client.seq`, store the call in
`pending`, and increment the counter. -/
def registerCall (st : ClientSt) : Except String (ClientSt × Nat) :=
  if st.closing || st.shutdown then .error "connection is shut down"
  else .ok ({ st with pending := st.seq :: st.pending, seq := st.seq + 1 }, st.seq)

/-- `Client.removeCall`: delete `pending[seq]` and report whether the call
was present (Go returns the `*Call`, nil when absent). -/
def removeCall (st : ClientSt) (s : Nat) : ClientSt × Bool :=
  ({ st with pending := st.pending.erase s }, st.pending.contains s)

/-- `n` successive successful `registerCall`s (`client.mu` serialises
them); returns the final state and the assigned seqs in order. -/
def registerN (st : ClientSt) : Nat → ClientSt × List Nat
  | 0 => (st, [])
  | Nat.succ k =>
    match registerCall st with
    | .error _ => (st, [])
    | .ok (st2, s) =>
      let (st3, l) := registerN st2 k
      (st3, s :: l)

/-- The receive loop handling one response per completed call: for each
header seq in `order`, `removeCall`; when the call is found, its `done()`
fires exactly once — the fired signals are collected in the second
component. -/
def processResponses (st : ClientSt) : List Nat → ClientSt × List Nat
  | [] => (st, [])
  | s :: rest =>
    let p := removeCall st s
    let q := processResponses p.1 rest
    (q.1, if p.2 then s :: q.2 else q.2)

/-! ## One iteration of `Client.receive` (client.go lines 190-217)

After `ReadHeader` yields a header `(hseq, herr)`, the loop body removes
the call and switches three ways.  `bodyOk` is the success of the
`ReadBody` performed in the taken branch (for the first two branches a
drain into a nil sink); the loop continues while that read returns no
error. -/

/-- What one receive iteration did with the response. -/
inductive RecvAction where
  | drainContinue
  | completeError (msg : String)
  | completeReply
deriving DecidableEq, Repr

/-- One iteration of `Client.receive`: `removeCall(h.Seq)`; a missing call
drains the body into a nil sink; a non-empty `h.Error` completes the call
with exactly that error and drains the body; otherwise the body is decoded
into the call's reply.  Returns the new state, the action taken, and
whether the loop continues. -/
def receiveStep (st : ClientSt) (hseq : Nat) (herr : String) (bodyOk : Bool) :
    ClientSt × RecvAction × Bool :=
  let p := removeCall st hseq
  if !p.2 then (p.1, .drainContinue, bodyOk)
  else if herr ≠ "" then (p.1, .completeError herr, bodyOk)
  else (p.1, .completeReply, bodyOk)

/-! ## `XClient.Broadcast` (xclient.go lines 90-129)

Each spawned per-address goroutine runs `xc.call` and then enters a
critical section under `mu`.  The interleaving of those critical sections
is an arbitrary order of the per-address outcomes, given as the list
`results` (one entry per discovered address: `none` = success, `some msg`
= the call's error).  The fold over the entire list models `wg.Wait`:
`Broadcast` returns only after every task has run.  `copies` is a ghost
counter of assignments into the caller's reply slot, `tasks` a ghost
counter of finished tasks. -/

/-- The shared state mutated inside `Broadcast`'s goroutines. -/
structure BroadcastSt where
  e : Option String
  replyDone : Bool
  cancelled : Bool
  copies : Nat
  tasks : Nat
deriving DecidableEq, Repr

/-- One task's critical section: the first error is recorded in `e` and
cancels the shared context; a success copies its cloned reply into the
caller's reply slot only while `replyDone` is still false. -/
def broadcastStep (st : BroadcastSt) (err : Option String) : BroadcastSt :=
  let st1 :=
    match err, st.e with
    | some msg, none => { st with e := some msg, cancelled := true }
    | _, _ => st
  let st2 :=
    if err.isNone && !st1.replyDone then
      { st1 with copies := st1.copies + 1, replyDone := true }
    else st1
  { st2 with tasks := st2.tasks + 1 }

/-- `XClient.Broadcast` after `GetAll` succeeded: fold every task's
critical section, starting from `e = nil`, `replyDone = (reply == nil)`.
The broadcast's returned error is the final `e`. -/
def broadcastRun (replyNil : Bool) (results : List (Option String)) : BroadcastSt :=
  results.foldl broadcastStep
    { e := none, replyDone := replyNil, cancelled := false, copies := 0, tasks := 0 }

end GoRpc

namespace GoRpc

/-! # Theorems -/

/-- **C9 counterexample.** The claim says more than one option yields an
error, but when the first of two options is the nil pointer, `parseOptions`
returns the default option instead of an error. -/
theorem parseOptions_two_opts_nil_first_not_error :
    parseOptions [none, some defaultGoOption] = .ok defaultGoOption ∧
      ¬ ∃ e, parseOptions [none, some defaultGoOption] = .error e := by
  constructor
  · rfl
  · rintro ⟨e, h⟩
    simp [parseOptions] at h

/-- **C9 (amended).** `parseOptions` with zero options, or whenever the
first option is nil (regardless of how many follow), returns the default
Option; with exactly one non-nil option it forces the magic number and
fills in the codec type only when empty, returning that option; with more
than one option whose first is non-nil it returns an error. -/
theorem parseOptions_spec (o : GoOption) (rest tail : List (Option GoOption))
    (hrest : rest ≠ []) :
    parseOptions [] = .ok defaultGoOption ∧
    parseOptions (none :: tail) = .ok defaultGoOption ∧
    parseOptions [some o] =
      .ok { o with
              number := magicNumber,
              codecType := if o.codecType = "" then defaultGoOption.codecType
                           else o.codecType } ∧
    parseOptions (some o :: rest) = .error "number of options is more than 1" := by
  refine ⟨rfl, rfl, rfl, ?_⟩
  simp [parseOptions, List.isEmpty_iff, hrest]

/-- Witness for C9's amended theorem at a concrete option list. -/
theorem parseOptions_spec_witness :
    ([some defaultGoOption] : List (Option GoOption)) ≠ [] ∧
    parseOptions [some { defaultGoOption with codecType := "" }] =
      .ok { defaultGoOption with
              number := magicNumber,
              codecType := if ("" : String) = "" then defaultGoOption.codecType
                           else "" } :=
  ⟨by decide, (parseOptions_spec { defaultGoOption with codecType := "" }
      [some defaultGoOption] [] (by decide)).2.2.1⟩

/-- **C10.** `Go` with a nil `done` channel does not fail: it attaches a
fresh capacity-10 channel and proceeds to send; a non-nil channel of any
nonzero capacity is accepted as-is; only a non-nil capacity-0 channel is
rejected by panic. -/
theorem clientGo_done_channel (m : String) (c : Nat) (hc : c ≠ 0) :
    clientGo m none = .ok { serviceMethod := m, doneCap := 10, sent := true } ∧
    clientGo m (some c) = .ok { serviceMethod := m, doneCap := c, sent := true } ∧
    clientGo m (some 0) = .error "rpc client: done channel is unbuffered" := by
  refine ⟨rfl, ?_, rfl⟩
  cases c with
  | zero => exact absurd rfl hc
  | succ k => rfl

/-- Witness for C10 at a concrete capacity. -/
theorem clientGo_done_channel_witness :
    (3 : Nat) ≠ 0 ∧
      clientGo "Foo.Sum" (some 3) =
        .ok { serviceMethod := "Foo.Sum", doneCap := 3, sent := true } :=
  ⟨by decide, (clientGo_done_channel "Foo.Sum" 3 (by decide)).2.1⟩

/-- **C8.** `Close` is idempotent-safe: on an open client (not closing) the
first call sets `closing` and closes the codec, returning no error; a
second call returns the shutdown error and leaves the state unchanged (no
panic: the model is total); `IsAvailable` is true exactly when neither
`closing` nor `shutdown` is set. -/
theorem clientClose_idempotent (st : CloseSt) (hopen : st.closing = false) :
    (clientClose st).1.closing = true ∧
    (clientClose st).1.codecClosed = true ∧
    (clientClose st).2 = none ∧
    clientClose (clientClose st).1 =
      ((clientClose st).1, some "connection is shut down") ∧
    (∀ st' : CloseSt, isAvailable st' = true ↔
        st'.closing = false ∧ st'.shutdown = false) := by
  refine ⟨?_, ?_, ?_, ?_, ?_⟩
  · simp [clientClose, hopen]
  · simp [clientClose, hopen]
  · simp [clientClose, hopen]
  · simp [clientClose, hopen]
  · intro st'
    simp [isAvailable, Bool.and_eq_true, and_comm]

/-- Witness for C8 at a concrete open client state. -/
theorem clientClose_idempotent_witness :
    ({ closing := false, shutdown := false, codecClosed := false } : CloseSt).closing
        = false ∧
      (clientClose { closing := false, shutdown := false, codecClosed := false }).2
        = none :=
  ⟨rfl, (clientClose_idempotent
      { closing := false, shutdown := false, codecClosed := false } rfl).2.2.1⟩

/-- **C1 counterexample.** For a request whose handler overruns a
`handle_timeout` of 1 (the supervisor's timer branch fires), the server
writes two responses, not one: the timeout error and then the worker's
late response, which the drain of `called` lets through. -/
theorem handleRequest_timeout_two_responses :
    handleRequest 1 true none = [.timeoutErr 1, .worker none] ∧
    (handleRequest 1 true none).length ≠ 1 ∧
    ServerResp.worker none ∈ handleRequest 1 true none := by
  refine ⟨rfl, by decide, ?_⟩
  simp [handleRequest]

/-- **C1 (amended).** When `handle_timeout > 0` and the supervisor's timer
branch fires, the server writes exactly two responses for the request, the
timeout-error response first and the worker's late response second; with
`handle_timeout = 0`, or when the worker signals `called` first, exactly
the worker's single response is written. -/
theorem handleRequest_wire (t : Nat) (w : Option String) (ht : t ≠ 0) :
    handleRequest t true w = [.timeoutErr t, .worker w] ∧
    (handleRequest t true w).length = 2 ∧
    handleRequest 0 true w = [.worker w] ∧
    handleRequest t false w = [.worker w] := by
  refine ⟨?_, ?_, rfl, ?_⟩ <;> simp [handleRequest, ht]

/-- Witness for C1's amended theorem at a concrete timeout. -/
theorem handleRequest_wire_witness :
    (2 : Nat) ≠ 0 ∧
      handleRequest 2 true (some "boom") = [.timeoutErr 2, .worker (some "boom")] :=
  ⟨by decide, (handleRequest_wire 2 (some "boom") (by decide)).1⟩

/-- **C2 (code bug).** `Client.Call` receives the completion signal
*before* its `select`, so: a call that completes under a never-cancelled
context leaves `Call` blocked forever (`none`); when the context is
cancelled, `Call` still returns the cancellation error even though the
call completed successfully; and under a cancelled context with an
uncompleted call, `Call` blocks on the pre-`select` receive instead of
returning promptly.  Each point contradicts the claimed race between
cancellation and completion, witnessed against the spec-side model. -/
theorem clientCall_select_branch_dead :
    clientCall true false none = none ∧
    clientCall true true none = some .cancelErr ∧
    clientCall false true (some "late") = none ∧
    specClientCall false none = .success ∧
    specClientCall true (some "late") = .cancelErr := by
  refine ⟨rfl, rfl, rfl, rfl, rfl⟩

/-- **C5.** A registry `GET`: the returned alive list contains exactly the
addresses whose `start + timeout` is still after `now` (all of them when
`timeout = 0`); expired entries are deleted from the map during the same
query; the list is sorted; and the header value is the comma-join of that
sorted list. -/
theorem registry_get_alive (r : Registry) (now : Nat) :
    (∀ a, a ∈ (aliveServers r now).1 ↔
        ∃ s ∈ r.servers, s.addr = a ∧ (r.timeout = 0 ∨ s.start + r.timeout > now)) ∧
    (aliveServers r now).2.servers = r.servers.filter (itemAlive r.timeout now) ∧
    (∀ s ∈ r.servers, itemAlive r.timeout now s = false →
        s ∉ (aliveServers r now).2.servers) ∧
    List.Sorted (· ≤ ·) (aliveServers r now).1 ∧
    serveGet r now =
      (String.intercalate "," (aliveServers r now).1, (aliveServers r now).2) := by
  refine ⟨?_, rfl, ?_, ?_, rfl⟩
  · intro a
    rw [show (aliveServers r now).1
          = ((r.servers.filter (itemAlive r.timeout now)).map
              ServerItem.addr).insertionSort (· ≤ ·) from rfl,
      (List.perm_insertionSort (· ≤ ·) _).mem_iff]
    simp only [List.mem_map, List.mem_filter, itemAlive, Bool.or_eq_true,
      beq_iff_eq, decide_eq_true_eq]
    constructor
    · rintro ⟨s, ⟨hs, halive⟩, rfl⟩
      exact ⟨s, hs, rfl, halive⟩
    · rintro ⟨s, hs, rfl, halive⟩
      exact ⟨s, ⟨hs, halive⟩, rfl⟩
  · intro s hs hdead hmem
    rw [show (aliveServers r now).2.servers
          = r.servers.filter (itemAlive r.timeout now) from rfl,
        List.mem_filter] at hmem
    rw [hdead] at hmem
    exact Bool.false_ne_true hmem.2
  · exact List.sorted_insertionSort (· ≤ ·) _

/-- Witness for C5 at a concrete registry: an expired entry is deleted by
the query. -/
theorem registry_get_alive_witness :
    (⟨"b", 0⟩ : ServerItem) ∈
        ({ timeout := 5, servers := [⟨"b", 0⟩, ⟨"a", 10⟩] } : Registry).servers ∧
      (⟨"b", 0⟩ : ServerItem) ∉
        (aliveServers { timeout := 5, servers := [⟨"b", 0⟩, ⟨"a", 10⟩] } 20).2.servers :=
  ⟨by decide,
    (registry_get_alive { timeout := 5, servers := [⟨"b", 0⟩, ⟨"a", 10⟩] } 20).2.2.1
      ⟨"b", 0⟩ (by decide) (by decide)⟩

/-- Round-robin `Get` on a nonempty list, for any state of the index. -/
theorem msGet_rr (ss : List String) (j p : Nat) (hne : ss ≠ []) :
    msGet ⟨ss, j⟩ p roundRobinSelect =
      .ok (ss.getD (j % ss.length) "", ⟨ss, (j + 1) % ss.length⟩) := by
  have hlen : ss.length ≠ 0 := by simpa using hne
  simp [msGet, roundRobinSelect, randomSelect, hlen]

/-- The servers returned by `k` consecutive round-robin calls, starting
from index `j`: positions `j % n, (j+1) % n, …` in order. -/
theorem msGetN_formula (ss : List String) (hne : ss ≠ []) :
    ∀ (k j : Nat), (msGetN ⟨ss, j⟩ k).1 =
      (List.range k).map (fun t => ss.getD ((j + t) % ss.length) "") := by
  intro k
  induction k with
  | zero => intro j; rfl
  | succ m ih =>
    intro j
    have h1 : msGetN ⟨ss, j⟩ (m + 1) =
        (ss.getD (j % ss.length) "" ::
            (msGetN ⟨ss, (j + 1) % ss.length⟩ m).1,
          (msGetN ⟨ss, (j + 1) % ss.length⟩ m).2) := by
      rw [show msGetN ⟨ss, j⟩ (m + 1)
            = match msGet ⟨ss, j⟩ 0 roundRobinSelect with
              | .error _ => ([], ⟨ss, j⟩)
              | .ok (s, d2) => (s :: (msGetN d2 m).1, (msGetN d2 m).2) from rfl,
          msGet_rr ss j 0 hne]
    have harg : (fun t => ss.getD (((j + 1) % ss.length + t) % ss.length) "")
        = ((fun t => ss.getD ((j + t) % ss.length) "") ∘ Nat.succ) := by
      funext t
      show ss.getD (((j + 1) % ss.length + t) % ss.length) ""
        = ss.getD ((j + Nat.succ t) % ss.length) ""
      rw [Nat.mod_add_mod, show j + 1 + t = j + Nat.succ t from by omega]
    rw [h1, ih ((j + 1) % ss.length), harg]
    show ss.getD (j % ss.length) "" ::
        List.map ((fun t => ss.getD ((j + t) % ss.length) "") ∘ Nat.succ)
          (List.range m)
      = List.map (fun t => ss.getD ((j + t) % ss.length) "") (List.range (m + 1))
    rw [List.range_succ_eq_map, List.map_cons, List.map_map, Nat.add_zero]

/-- Rotating `range n` by `j` modulo `n` is a permutation of `range n`. -/
theorem rotate_mod_perm (n j : Nat) (hn : n ≠ 0) :
    ((List.range n).map (fun t => (j + t) % n)).Perm (List.range n) := by
  have hnd : ((List.range n).map (fun t => (j + t) % n)).Nodup := by
    refine List.Nodup.map_on ?_ (List.nodup_range n)
    intro a ha b hb hab
    rw [List.mem_range] at ha hb
    have hmod : a % n = b % n := Nat.ModEq.add_left_cancel' j hab
    rwa [Nat.mod_eq_of_lt ha, Nat.mod_eq_of_lt hb] at hmod
  have hsub : ((List.range n).map (fun t => (j + t) % n)) ⊆ List.range n := by
    intro x hx
    rw [List.mem_map] at hx
    obtain ⟨t, _, rfl⟩ := hx
    rw [List.mem_range]
    exact Nat.mod_lt _ (Nat.pos_of_ne_zero hn)
  exact (List.subperm_of_subset hnd hsub).perm_of_length_le (by simp)

/-- **C6.** On a nonempty server list of length `n`, `Get(RoundRobin)`
returns `servers[index % n]` and sets `index := (index + 1) % n`; `n`
consecutive round-robin calls return the servers at positions
`index % n, (index+1) % n, …`, and those `n` positions are a permutation
of `0, …, n-1` (each server returned exactly once, modulo the initial
offset); `Get` on an empty list errors; an unknown mode errors. -/
theorem msDiscovery_roundRobin (d : MultiServersDiscovery) (p : Nat) (m : Int)
    (hne : d.servers ≠ []) :
    msGet d p roundRobinSelect =
      .ok (d.servers.getD (d.index % d.servers.length) "",
        { d with index := (d.index + 1) % d.servers.length }) ∧
    (msGetN d d.servers.length).1 =
      (List.range d.servers.length).map
        (fun t => d.servers.getD ((d.index + t) % d.servers.length) "") ∧
    ((List.range d.servers.length).map
        (fun t => (d.index + t) % d.servers.length)).Perm
      (List.range d.servers.length) ∧
    (∀ d2 : MultiServersDiscovery, d2.servers = [] →
        msGet d2 p m = .error "rpc discovery: no available servers") ∧
    (m ≠ randomSelect → m ≠ roundRobinSelect →
        msGet d p m = .error "rpc discovery: not supported select mode") := by
  obtain ⟨ss, j⟩ := d
  refine ⟨msGet_rr ss j p hne, msGetN_formula ss hne ss.length j,
    rotate_mod_perm ss.length j (by simpa using hne), ?_, ?_⟩
  · intro d2 h2
    simp [msGet, h2]
  · intro hm0 hm1
    have hlen : ss.length ≠ 0 := by simpa using hne
    simp [msGet, hlen, hm0, hm1]

/-- Witness for C6 at a concrete discovery state. -/
theorem msDiscovery_roundRobin_witness :
    (⟨["a", "b"], 5⟩ : MultiServersDiscovery).servers ≠ [] ∧
      msGet ⟨["a", "b"], 5⟩ 0 7 = .error "rpc discovery: not supported select mode" :=
  ⟨by decide,
    (msDiscovery_roundRobin ⟨["a", "b"], 5⟩ 0 7 (by decide)).2.2.2.2
      (by decide) (by decide)⟩

/-- **C7.** A response whose seq has no pending entry makes the receiver
drain the body into the nil sink, leave the pending map as it was, and
continue the loop (whenever the drain itself succeeds, `bodyOk`); a
response whose entry exists and whose header carries a non-empty error
string completes that Call with exactly that error string (one `done()`
signal), removes it from `pending`, and likewise drains the body. -/
theorem receive_dispatch (st : ClientSt) (hseq : Nat) (herr : String) (bodyOk : Bool) :
    (hseq ∉ st.pending →
      receiveStep st hseq herr bodyOk = (st, .drainContinue, bodyOk)) ∧
    (hseq ∈ st.pending → herr ≠ "" →
      receiveStep st hseq herr bodyOk =
        ({ st with pending := st.pending.erase hseq }, .completeError herr, bodyOk)) := by
  constructor
  · intro hmiss
    simp [receiveStep, removeCall, hmiss, List.erase_of_not_mem hmiss]
  · intro hmem herr0
    simp [receiveStep, removeCall, hmem, herr0]

/-- Witness for C7 at a concrete client state and header. -/
theorem receive_dispatch_witness :
    (2 : Nat) ∈ (ClientSt.mk 3 [1, 2] false false).pending ∧
      ("boom" : String) ≠ "" ∧
      receiveStep (ClientSt.mk 3 [1, 2] false false) 2 "boom" true =
        (ClientSt.mk 3 [1] false false, .completeError "boom", true) :=
  ⟨by decide, by decide, by
    have h := (receive_dispatch (ClientSt.mk 3 [1, 2] false false)
        2 "boom" true).2 (by decide) (by decide)
    simpa using h⟩

/-- `broadcastStep` never clears an already-recorded error. -/
theorem broadcast_e_some (l : List (Option String)) :
    ∀ (st : BroadcastSt) (m : String), st.e = some m →
      (l.foldl broadcastStep st).e = some m := by
  induction l with
  | nil => intro st m h; simpa using h
  | cons a rest ih =>
    intro st m h
    have hstep : (broadcastStep st a).e = some m := by
      rcases a with _ | msg <;> rcases hd : st.replyDone <;>
        simp [broadcastStep, h, hd]
    exact ih (broadcastStep st a) m hstep

/-- Starting with no recorded error, the fold records exactly the first
error of the interleaving. -/
theorem broadcast_e_first (l : List (Option String)) :
    ∀ st : BroadcastSt, st.e = none →
      (l.foldl broadcastStep st).e = (l.filterMap id).head? := by
  induction l with
  | nil => intro st h; simpa using h
  | cons a rest ih =>
    intro st h
    cases a with
    | none =>
      have hstep : (broadcastStep st none).e = none := by
        rcases hd : st.replyDone <;> simp [broadcastStep, h, hd]
      simpa [List.filterMap_cons] using ih (broadcastStep st none) hstep
    | some m =>
      have hstep : (broadcastStep st (some m)).e = some m := by
        rcases hd : st.replyDone <;> simp [broadcastStep, h, hd]
      simpa [List.filterMap_cons] using
        broadcast_e_some rest (broadcastStep st (some m)) m hstep

/-- After the reply slot has been filled, no further copies happen. -/
theorem broadcast_copies_done (l : List (Option String)) :
    ∀ st : BroadcastSt, st.replyDone = true →
      (l.foldl broadcastStep st).copies = st.copies ∧
        (l.foldl broadcastStep st).replyDone = true := by
  induction l with
  | nil => intro st h; exact ⟨rfl, h⟩
  | cons a rest ih =>
    intro st h
    have hstep : (broadcastStep st a).copies = st.copies ∧
        (broadcastStep st a).replyDone = true := by
      rcases a with _ | msg <;> rcases he : st.e with _ | m2 <;>
        simp [broadcastStep, h, he]
    obtain ⟨h1, h2⟩ := ih (broadcastStep st a) hstep.2
    exact ⟨h1.trans hstep.1, h2⟩

/-- At most one more copy into the reply slot can ever happen. -/
theorem broadcast_copies_le (l : List (Option String)) :
    ∀ st : BroadcastSt, st.replyDone = false →
      (l.foldl broadcastStep st).copies ≤ st.copies + 1 := by
  induction l with
  | nil => intro st _; simp
  | cons a rest ih =>
    intro st h
    cases a with
    | none =>
      have hstep : (broadcastStep st none).copies = st.copies + 1 ∧
          (broadcastStep st none).replyDone = true := by
        rcases he : st.e with _ | m2 <;> simp [broadcastStep, h, he]
      have hdone := broadcast_copies_done rest (broadcastStep st none) hstep.2
      simp only [List.foldl_cons]
      omega
    | some m =>
      have hstep : (broadcastStep st (some m)).copies = st.copies ∧
          (broadcastStep st (some m)).replyDone = false := by
        rcases he : st.e with _ | m2 <;> simp [broadcastStep, h, he]
      have := ih (broadcastStep st (some m)) hstep.2
      simp only [List.foldl_cons]
      omega

/-- `cancel()` is invoked exactly when an error has been recorded. -/
theorem broadcast_cancel_inv (l : List (Option String)) :
    ∀ st : BroadcastSt, st.cancelled = st.e.isSome →
      (l.foldl broadcastStep st).cancelled = (l.foldl broadcastStep st).e.isSome := by
  induction l with
  | nil => intro st h; simpa using h
  | cons a rest ih =>
    intro st h
    refine ih (broadcastStep st a) ?_
    rcases a with _ | msg <;> rcases he : st.e with _ | m2 <;>
      rcases hd : st.replyDone <;> simp_all [broadcastStep]

/-- Every task runs its critical section exactly once. -/
theorem broadcast_tasks_count (l : List (Option String)) :
    ∀ st : BroadcastSt, (l.foldl broadcastStep st).tasks = st.tasks + l.length := by
  induction l with
  | nil => intro st; simp
  | cons a rest ih =>
    intro st
    have hstep : (broadcastStep st a).tasks = st.tasks + 1 := by
      rcases a with _ | msg <;> rcases he : st.e with _ | m2 <;>
        rcases hd : st.replyDone <;> simp [broadcastStep, he, hd]
    simp only [List.foldl_cons, ih (broadcastStep st a), hstep, List.length_cons]
    omega

/-- **C4.** Over any interleaving of the per-address tasks of a
`Broadcast`: at most one successful reply is copied into the caller's
reply slot (none at all when the caller passed a nil reply); the recorded
error is exactly the first error in the interleaving; the shared context
is cancelled exactly when some task errored; and the number of completed
critical sections equals the number of spawned tasks (`wg.Wait` returns
only after all of them). -/
theorem broadcast_semantics (replyNil : Bool) (results : List (Option String)) :
    (broadcastRun replyNil results).copies ≤ 1 ∧
    (replyNil = true → (broadcastRun replyNil results).copies = 0) ∧
    (broadcastRun replyNil results).e = (results.filterMap id).head? ∧
    (broadcastRun replyNil results).cancelled
      = ((broadcastRun replyNil results).e).isSome ∧
    (broadcastRun replyNil results).tasks = results.length := by
  refine ⟨?_, ?_, ?_, ?_, ?_⟩
  · cases hr : replyNil with
    | true =>
      have := (broadcast_copies_done results
        { e := none, replyDone := true, cancelled := false, copies := 0, tasks := 0 }
        rfl).1
      simp [broadcastRun, this]
    | false =>
      have := broadcast_copies_le results
        { e := none, replyDone := false, cancelled := false, copies := 0, tasks := 0 }
        rfl
      simpa [broadcastRun] using this
  · intro hr
    subst hr
    exact (broadcast_copies_done results
      { e := none, replyDone := true, cancelled := false, copies := 0, tasks := 0 }
      rfl).1
  · exact broadcast_e_first results _ rfl
  · exact broadcast_cancel_inv results _ (by simp)
  · simpa [broadcastRun] using broadcast_tasks_count results
      { e := none, replyDone := replyNil, cancelled := false, copies := 0, tasks := 0 }

/-- Witness for C4's nil-reply conjunct at a concrete interleaving. -/
theorem broadcast_semantics_witness :
    (true : Bool) = true ∧
      (broadcastRun true [none, some "boom", none]).copies = 0 :=
  ⟨rfl, (broadcast_semantics true [none, some "boom", none]).2.1 rfl⟩

/-- Successive `registerCall`s on an open client assign the consecutive
seqs `st.seq, st.seq + 1, …` and stack them on the pending map. -/
theorem registerN_open (n : Nat) :
    ∀ st : ClientSt, st.closing = false → st.shutdown = false →
      registerN st n =
        (ClientSt.mk (st.seq + n)
            ((List.range' st.seq n).reverse ++ st.pending) st.closing st.shutdown,
          List.range' st.seq n) := by
  induction n with
  | zero =>
    intro st hc hs
    simp [registerN, List.range'_zero]
  | succ k ih =>
    intro st hc hs
    have hreg : registerCall st =
        .ok (ClientSt.mk (st.seq + 1) (st.seq :: st.pending) st.closing st.shutdown,
          st.seq) := by
      simp [registerCall, hc, hs]
    have hun : registerN st (k + 1) =
        match registerCall st with
        | .error _ => (st, [])
        | .ok (st2, s) => ((registerN st2 k).1, s :: (registerN st2 k).2) := rfl
    rw [hun, hreg]
    dsimp only
    rw [ih (ClientSt.mk (st.seq + 1) (st.seq :: st.pending) st.closing st.shutdown)
      hc hs]
    dsimp only
    rw [List.range'_succ]
    simp only [List.reverse_cons, List.append_assoc, List.singleton_append]
    rw [show st.seq + 1 + k = st.seq + (k + 1) from by omega]

/-- Draining a permutation of the pending map completes every pending call
exactly once and empties the map. -/
theorem processResponses_perm :
    ∀ (order : List Nat) (st : ClientSt), order.Nodup → st.pending.Perm order →
      processResponses st order = ({ st with pending := [] }, order) := by
  intro order
  induction order with
  | nil =>
    intro st _ hperm
    have hnil : st.pending = [] := hperm.eq_nil
    have heta : ({ st with pending := ([] : List Nat) } : ClientSt) = st := by
      rw [← hnil]
    simp [processResponses, heta]
  | cons s rest ih =>
    intro st hnd hperm
    have hmem : s ∈ st.pending := hperm.mem_iff.mpr (List.mem_cons_self s rest)
    have hperm2 : (st.pending.erase s).Perm rest := by
      have h2 := hperm.erase s
      rwa [List.erase_cons_head] at h2
    have ih2 := ih { st with pending := st.pending.erase s }
      (List.Nodup.of_cons hnd) hperm2
    simp [processResponses, removeCall, hmem, ih2]

/-- `range' s n` is strictly sorted. -/
theorem sorted_lt_range' (s n : Nat) : List.Sorted (· < ·) (List.range' s n) := by
  induction n generalizing s with
  | zero => simp
  | succ k ih =>
    rw [List.range'_succ]
    refine List.sorted_cons.mpr ⟨?_, ih (s + 1)⟩
    intro b hb
    have := (List.mem_range'_1.mp hb).1
    omega

/-- **C3.** Starting from a fresh client, `n` calls that all run to
completion: the assigned seqs are exactly `1, 2, …, n` (monotonic from 1,
pairwise distinct, never 0); and processing the `n` responses in any order
fires each call's completion signal exactly once (the signal list equals
the response order, one entry per call) and leaves the pending map
empty. -/
theorem client_call_invariants (n : Nat) (order : List Nat)
    (hperm : order.Perm (registerN newClientSt n).2) :
    (registerN newClientSt n).2 = List.range' 1 n ∧
    (registerN newClientSt n).2.Nodup ∧
    (∀ s ∈ (registerN newClientSt n).2, s ≠ 0) ∧
    List.Sorted (· < ·) (registerN newClientSt n).2 ∧
    (registerN newClientSt n).1.seq = n + 1 ∧
    processResponses (registerN newClientSt n).1 order
      = ({ (registerN newClientSt n).1 with pending := [] }, order) := by
  have hreg := registerN_open n newClientSt rfl rfl
  have hseqs : (registerN newClientSt n).2 = List.range' 1 n := by
    rw [hreg]
    rfl
  refine ⟨hseqs, ?_, ?_, ?_, ?_, ?_⟩
  · rw [hseqs]; exact List.nodup_range' 1 n
  · intro s hs
    rw [hseqs] at hs
    have := (List.mem_range'_1.mp hs).1
    omega
  · rw [hseqs]; exact sorted_lt_range' 1 n
  · rw [hreg]; simp [newClientSt]; omega
  · have hnd : order.Nodup := by
      rw [hseqs] at hperm
      exact hperm.symm.nodup (List.nodup_range' 1 n)
    have hpend : (registerN newClientSt n).1.pending.Perm order := by
      rw [hreg]
      show ((List.range' 1 n).reverse ++ ([] : List Nat)).Perm order
      rw [List.append_nil]
      exact (List.reverse_perm (List.range' 1 n)).trans (hseqs ▸ hperm).symm
    exact processResponses_perm order (registerN newClientSt n).1 hnd hpend

/-- Witness for C3 at two calls completed in reverse order. -/
theorem client_call_invariants_witness :
    ([2, 1] : List Nat).Perm (registerN newClientSt 2).2 ∧
      processResponses (registerN newClientSt 2).1 [2, 1]
        = ({ (registerN newClientSt 2).1 with pending := [] }, [2, 1]) :=
  ⟨by decide, (client_call_invariants 2 [2, 1] (by decide)).2.2.2.2.2⟩

end GoRpc
